import Mathlib

/-!
Verification development for the neuron7x-core cognitive decision engine.

The repository ships only call sites (an integration test, an example
script, a package manifest); the engine package itself is not among the
given sources.  Every component below is therefore modelled from the
specification text (spec.md), faithful to its words: Configuration,
Concept Encoder, Memory Store, Personality Registry, Modulation State and
Decision Engine.  Real numbers of the specification are modelled by
rational numbers so that all definitions are executable.
-/

namespace Neuron7x

/-! ## Data model and operations -/

/-- Modelled from the spec: the error taxonomy of section 7
(`UnknownConceptError`, `EmptyMemoryError`, `DuplicateProfileError`,
`DimensionMismatchError`). -/
inductive NError where
  | unknownConcept : String → NError
  | emptyMemory : NError
  | duplicateProfile : String → NError
  | dimensionMismatch : NError
deriving DecidableEq

/-- Modelled from the spec: the immutable Configuration of section 3 —
`dimension` (positive integer), `score_bounds` (ordered pair),
`modulation_decay_rate` (in [0,1]) — together with the declared maximum
intensity of section 4.4.  Defaults reproduce the observed contract of the
integration test (`NeuroConfig()` with score bounds 0 and 2). -/
structure NeuroConfig where
  dimension : Nat := 8
  score_bounds : ℚ × ℚ := (0, 2)
  modulation_decay_rate : ℚ := 1/10
  max_intensity : ℚ := 10
deriving DecidableEq

/-- Modelled from the spec: the no-argument construction `NeuroConfig()`
used by the test and the example. -/
def NeuroConfig.default : NeuroConfig := {}

/-- Modelled from the spec: the example script reads the vector
dimensionality as the attribute `DIM` of the configuration. -/
def NeuroConfig.DIM (c : NeuroConfig) : Nat := c.dimension

/-- Well-formedness of a configuration: ordered score bounds, decay rate
in [0,1], non-negative maximum intensity. -/
def ConfigWF (c : NeuroConfig) : Prop :=
  c.score_bounds.1 ≤ c.score_bounds.2 ∧
  0 ≤ c.modulation_decay_rate ∧ c.modulation_decay_rate ≤ 1 ∧
  0 ≤ c.max_intensity

instance (c : NeuroConfig) : Decidable (ConfigWF c) := by
  unfold ConfigWF; infer_instance

/-- Modelled from the spec: the element-wise bounded activation
("tanh-like squashing") of the encoder; `x / (1 + |x|)` is a bounded
odd squashing with values in (-1, 1). -/
def squash (x : ℚ) : ℚ := x / (1 + |x|)

/-- Modelled from the spec: the fixed harmonic phase rotation
parameterized by `dimension` — a bounded periodic wave of period
`dimension` over the component index, with values in [-1, 1]. -/
def phase (dimension i : Nat) : ℚ := 1 - 2 * ((i % dimension : Nat) : ℚ) / dimension

/-- Component-wise encoding of a base embedding starting at index `i`:
each component is the squashed base value rotated by the harmonic phase. -/
def encodeFrom (dimension : Nat) (i : Nat) : List ℚ → List ℚ
  | [] => []
  | x :: xs => phase dimension i * squash x :: encodeFrom dimension (i + 1) xs

/-- Modelled from the spec: `encode(concept) -> EncodedVector`, a pure
function of the concept's base embedding (from the supplied mapping) and
the Configuration.  Fails with `UnknownConceptError` when the concept is
absent from the embeddings and with `DimensionMismatchError` when the
base embedding does not match the configured dimension (section 7:
checked at the encoder boundary). -/
def encode (embeddings : List (String × List ℚ)) (cfg : NeuroConfig)
    (concept : String) : Except NError (List ℚ) :=
  match embeddings.lookup concept with
  | none => .error (.unknownConcept concept)
  | some base =>
      if base.length = cfg.dimension then .ok (encodeFrom cfg.dimension 0 base)
      else .error .dimensionMismatch

/-- Modelled from the spec: a MemoryEntry of section 3 — label, encoded
vector, reward, recency weight. -/
structure MemoryEntry where
  label : String
  vector : List ℚ
  reward : ℚ
  recency_weight : ℚ
deriving DecidableEq

/-- Modelled from the spec: the Memory Store, an append/update store of
entries kept in insertion order. -/
structure MemoryStore where
  entries : List MemoryEntry
deriving DecidableEq

/-- Modelled from the spec: the fixed blend factor of the exponential
moving update applied by `store` on a repeated label. -/
def blendAlpha : ℚ := 1/2

/-- Squared Euclidean norm of a vector. -/
def sqnorm (v : List ℚ) : ℚ := (v.map (fun x => x * x)).sum

/-- Component-wise difference of two vectors. -/
def vsub (u v : List ℚ) : List ℚ := List.zipWith (fun a b => a - b) u v

/-- Modelled from the spec: the bounded similarity measure of `recall`
("cosine similarity or equivalent bounded similarity measure") — one
minus the squared distance normalised by the sum of the squared norms.
It is bounded in [-1, 1] and attains its maximum 1 exactly on identical
vectors. -/
def sim (q v : List ℚ) : ℚ := 1 - sqnorm (vsub q v) / (sqnorm q + sqnorm v)

/-- Modelled from the spec: `store(label, vector, reward)` — inserts a
fresh entry (recency weight 1) or, when the label is already present,
blends the new vector and reward into the existing entry by an
exponential moving update and refreshes the recency weight
exponentially.  Vectors not matching the configured dimension are
rejected with `DimensionMismatchError` (section 7). -/
def MemoryStore.store (cfg : NeuroConfig) (s : MemoryStore) (label : String)
    (v : List ℚ) (reward : ℚ) : Except NError MemoryStore :=
  if v.length = cfg.dimension then
    if s.entries.any (fun e => e.label = label) then
      .ok ⟨s.entries.map (fun e =>
        if e.label = label then
          { e with
            vector := List.zipWith (fun o n => o + blendAlpha * (n - o)) e.vector v,
            reward := e.reward + blendAlpha * (reward - e.reward),
            recency_weight := 2 * e.recency_weight }
        else e)⟩
    else
      .ok ⟨s.entries ++ [⟨label, v, reward, 1⟩]⟩
  else .error .dimensionMismatch

/-- Ranking order of scored entries: strictly higher similarity first,
ties broken by strictly higher recency weight; otherwise the earlier
element keeps its place (insertion order). -/
def better (a b : MemoryEntry × ℚ) : Bool :=
  if b.2 < a.2 then true
  else if a.2 = b.2 ∧ b.1.recency_weight < a.1.recency_weight then true
  else false

/-- Stable insertion into a ranked list: the inserted element, which came
earlier in insertion order than everything already in the list, stays in
front unless the head is strictly better. -/
def insertRanked (x : MemoryEntry × ℚ) : List (MemoryEntry × ℚ) → List (MemoryEntry × ℚ)
  | [] => [x]
  | y :: ys => if better y x then y :: insertRanked x ys else x :: y :: ys

/-- Stable insertion sort by the ranking order. -/
def rankEntries : List (MemoryEntry × ℚ) → List (MemoryEntry × ℚ)
  | [] => []
  | x :: xs => insertRanked x (rankEntries xs)

/-- Modelled from the spec: `recall(vector, top_k)` — similarity of the
query against every stored vector, the `top_k` highest in descending
order, ties broken by higher recency weight then insertion order;
fails with `EmptyMemoryError` on an empty store. -/
def MemoryStore.recall (s : MemoryStore) (q : List ℚ) (top_k : Nat) :
    Except NError (List (MemoryEntry × ℚ)) :=
  if s.entries.isEmpty then .error .emptyMemory
  else .ok ((rankEntries (s.entries.map (fun e => (e, sim q e.vector)))).take top_k)

/-- Modelled from the spec: a PersonalityProfile — a unique name and a
mapping from trait name to real weight. -/
structure PersonalityProfile where
  name : String
  traits : List (String × ℚ)
deriving DecidableEq

/-- Modelled from the spec: the dot-product-like alignment between a
profile's trait weights and the matching keys of the context; a trait
key with no matching context key contributes zero. -/
def alignment (traits : List (String × ℚ)) (context : List (String × ℚ)) : ℚ :=
  (traits.map (fun kv => kv.2 * ((context.lookup kv.1).getD 0))).sum

/-- Modelled from the spec: `bias(context)` — the arithmetic mean over
all registered profiles of each profile's alignment with the context
(zero when no profile is registered). -/
def bias (profiles : List PersonalityProfile) (context : List (String × ℚ)) : ℚ :=
  (profiles.map (fun p => alignment p.traits context)).sum / profiles.length

/-- Modelled from the spec: `add(profile)` — fails with
`DuplicateProfileError` when the name is already registered. -/
def addProfile (profiles : List PersonalityProfile) (p : PersonalityProfile) :
    Except NError (List PersonalityProfile) :=
  if profiles.any (fun q => q.name = p.name) then .error (.duplicateProfile p.name)
  else .ok (profiles ++ [p])

/-- Modelled from the spec: the ModulationState — a non-negative
intensity and the elapsed time (in discrete time-steps) since the last
trigger. -/
structure ModulationState where
  intensity : ℚ
  elapsed : Nat
deriving DecidableEq

/-- Modelled from the spec: `trigger(intensity_delta)` — increases the
intensity by the delta, clamped to the declared maximum and floored at
zero, and resets the elapsed clock. -/
def ModulationState.trigger (cfg : NeuroConfig) (m : ModulationState)
    (intensity_delta : ℚ) : ModulationState :=
  { intensity := max 0 (min (m.intensity + intensity_delta) cfg.max_intensity),
    elapsed := 0 }

/-- Per-step retained fraction of the exponential decay: one minus the
configured decay rate. -/
def decayBase (cfg : NeuroConfig) : ℚ := 1 - cfg.modulation_decay_rate

/-- Modelled from the spec: `current_factor()` — returns the intensity
decayed exponentially at the configured rate over the elapsed
time-steps, and advances the elapsed clock by one discrete time-step. -/
def ModulationState.current_factor (cfg : NeuroConfig) (m : ModulationState) :
    ℚ × ModulationState :=
  (m.intensity * decayBase cfg ^ m.elapsed, { m with elapsed := m.elapsed + 1 })

/-- Modelled from the spec: the engine owns the shared configuration, the
Memory Store, the Personality Registry and its own Modulation State. -/
structure Engine where
  config : NeuroConfig
  memory : MemoryStore
  profiles : List PersonalityProfile
  modulation : ModulationState
deriving DecidableEq

/-- Modelled from the spec: `BioQuantumEngine(config)` — a fresh engine
with empty memory, no profiles and quiescent modulation. -/
def Engine.mk0 (cfg : NeuroConfig) : Engine :=
  { config := cfg, memory := ⟨[]⟩, profiles := [], modulation := ⟨0, 0⟩ }

/-- Modelled from the spec: `add_personality(profile)` on the engine,
delegating to the registry's `add`. -/
def Engine.add_personality (eng : Engine) (p : PersonalityProfile) :
    Except NError Engine := do
  let ps ← addProfile eng.profiles p
  pure { eng with profiles := ps }

/-- Saturating clamp of a value into the interval [lo, hi]. -/
def clampQ (lo hi x : ℚ) : ℚ := min hi (max lo x)

/-- Midpoint of the configured score bounds: the decision threshold. -/
def midpoint (cfg : NeuroConfig) : ℚ := (cfg.score_bounds.1 + cfg.score_bounds.2) / 2

/-- Modelled from the spec: the memory contribution of a decision —
similarity of the top-1 recalled entry times its stored reward; the
fixed empty-memory policy substitutes the neutral default 0 when recall
fails with `EmptyMemoryError`. -/
def memoryScore (s : MemoryStore) (q : List ℚ) : ℚ :=
  match s.recall q 1 with
  | .ok ((e, similarity) :: _) => similarity * e.reward
  | _ => 0

/-- Modelled from the spec: `decide(context, concept)` — encode the
concept (propagating `UnknownConceptError`), combine the memory score,
the personality bias and the modulation factor as
`raw_score = memory_score + personality_bias * (1 + modulation_factor)`,
clamp into the score bounds, threshold at the midpoint (strictly above
the midpoint is "buy", otherwise "hold"), and return the decision with
a report of the score and the contributions; the modulation clock
advances as the documented side effect of reading the factor. -/
def Engine.decide (eng : Engine) (embeddings : List (String × List ℚ))
    (context : List (String × ℚ)) (concept : String) :
    Except NError ((String × List (String × ℚ)) × Engine) :=
  match encode embeddings eng.config concept with
  | .error e => .error e
  | .ok v =>
      let memory_score := memoryScore eng.memory v
      let personality_bias := bias eng.profiles context
      let modulation_factor := (eng.modulation.current_factor eng.config).1
      let raw_score := memory_score + personality_bias * (1 + modulation_factor)
      let score := clampQ eng.config.score_bounds.1 eng.config.score_bounds.2 raw_score
      let decision := if midpoint eng.config < score then "buy" else "hold"
      .ok ((decision,
            [("score", score), ("memory_score", memory_score),
             ("personality_bias", personality_bias),
             ("modulation_factor", modulation_factor)]),
           { eng with modulation := (eng.modulation.current_factor eng.config).2 })

/-- A one-dimensional configuration used for concrete evaluations. -/
def cfgDim1 : NeuroConfig := { dimension := 1 }

/-- A concrete embeddings mapping over the one-dimensional configuration. -/
def embW : List (String × List ℚ) := [("c", [1])]

/-- The encoded vector of concept `"c"` under `embW` and `cfgDim1`. -/
def vW : List ℚ := [1/2]

/-- A fresh engine over the one-dimensional configuration. -/
def engW : Engine := Engine.mk0 cfgDim1

/-- The report emitted by `engW.decide embW [] "c"`. -/
def reportW : List (String × ℚ) :=
  [("score", 0), ("memory_score", 0), ("personality_bias", 0), ("modulation_factor", 0)]

/-- The engine state after `engW.decide embW [] "c"`: only the modulation
clock advanced. -/
def engW2 : Engine := { engW with modulation := ⟨0, 1⟩ }

/-- A concrete embeddings mapping over the default configuration. -/
def embD : List (String × List ℚ) := [("opportunity", [1, 0, 0, 0, 0, 0, 0, 0])]

/-- A fresh engine over the default configuration. -/
def engD : Engine := Engine.mk0 NeuroConfig.default

/-- The engine state after `engD.decide embD [] "opportunity"`. -/
def engD2 : Engine := { engD with modulation := ⟨0, 1⟩ }

/-! ## Component lemmas -/

theorem squash_bounds (x : ℚ) : -1 ≤ squash x ∧ squash x ≤ 1 := by
  have hpos : (0 : ℚ) < 1 + |x| := by positivity
  constructor
  · rw [squash, le_div_iff₀ hpos]
    have := neg_abs_le x
    linarith
  · rw [squash, div_le_one hpos]
    have := le_abs_self x
    linarith

theorem phase_bounds (n i : Nat) : -1 ≤ phase n i ∧ phase n i ≤ 1 := by
  rcases Nat.eq_zero_or_pos n with hn | hn
  · subst hn
    simp [phase]
  · have h0 : (0 : ℚ) ≤ ((i % n : Nat) : ℚ) := by positivity
    have h1 : ((i % n : Nat) : ℚ) < (n : ℚ) := by
      exact_mod_cast Nat.mod_lt i hn
    have hnpos : (0 : ℚ) < (n : ℚ) := by exact_mod_cast hn
    constructor
    · have : 2 * ((i % n : Nat) : ℚ) / n < 2 := by
        rw [div_lt_iff₀ hnpos]
        nlinarith
      unfold phase; linarith
    · have : 0 ≤ 2 * ((i % n : Nat) : ℚ) / n := by positivity
      unfold phase; linarith

theorem encodeFrom_length (n i : Nat) (l : List ℚ) :
    (encodeFrom n i l).length = l.length := by
  induction l generalizing i with
  | nil => rfl
  | cons x xs ih => simp [encodeFrom, ih]

theorem encodeFrom_mem_bounds (n i : Nat) (l : List ℚ) :
    ∀ y ∈ encodeFrom n i l, -1 ≤ y ∧ y ≤ 1 := by
  induction l generalizing i with
  | nil => intro y hy; simp [encodeFrom] at hy
  | cons x xs ih =>
      intro y hy
      simp only [encodeFrom, List.mem_cons] at hy
      rcases hy with hy | hy
      · subst hy
        have hp := phase_bounds n i
        have hs := squash_bounds x
        have habs : |phase n i * squash x| ≤ 1 := by
          rw [abs_mul]
          have h1 : |phase n i| ≤ 1 := abs_le.mpr hp
          have h2 : |squash x| ≤ 1 := abs_le.mpr hs
          exact mul_le_one₀ h1 (abs_nonneg _) h2
        exact abs_le.mp habs
      · exact ih (i + 1) y hy

theorem sqnorm_nonneg (v : List ℚ) : 0 ≤ sqnorm v := by
  induction v with
  | nil => simp [sqnorm]
  | cons x xs ih =>
      simp only [sqnorm, List.map_cons, List.sum_cons] at ih ⊢
      nlinarith [sq_nonneg x]

theorem vsub_self (v : List ℚ) : sqnorm (vsub v v) = 0 := by
  induction v with
  | nil => rfl
  | cons x xs ih =>
      simp only [vsub, sqnorm, List.zipWith_cons_cons, List.map_cons,
        List.sum_cons] at ih ⊢
      simp [ih]

theorem sim_self (v : List ℚ) : sim v v = 1 := by
  simp [sim, vsub_self]

theorem sqnorm_vsub_pos (v w : List ℚ) (hlen : v.length = w.length)
    (hne : v ≠ w) : 0 < sqnorm (vsub v w) := by
  induction v generalizing w with
  | nil =>
      cases w with
      | nil => exact absurd rfl hne
      | cons y ys => simp at hlen
  | cons x xs ih =>
      cases w with
      | nil => simp at hlen
      | cons y ys =>
          simp only [List.length_cons, Nat.succ_inj] at hlen
          simp only [vsub, List.zipWith_cons_cons, sqnorm, List.map_cons,
            List.sum_cons]
          by_cases hxy : x = y
          · subst hxy
            have hne2 : xs ≠ ys := by
              intro h; exact hne (by rw [h])
            have := ih ys hlen hne2
            simp only [vsub, sqnorm] at this
            nlinarith
          · have h1 : 0 < (x - y) * (x - y) :=
              mul_self_pos.mpr (sub_ne_zero.mpr hxy)
            have h2 : 0 ≤ sqnorm (vsub xs ys) := sqnorm_nonneg _
            simp only [vsub, sqnorm] at h2
            nlinarith

theorem sqnorm_sum_pos (v w : List ℚ) (h : 0 < sqnorm (vsub v w)) :
    0 < sqnorm v + sqnorm w := by
  induction v generalizing w with
  | nil => simp [vsub, sqnorm] at h
  | cons x xs ih =>
      cases w with
      | nil => simp [vsub, sqnorm] at h
      | cons y ys =>
          simp only [vsub, List.zipWith_cons_cons, sqnorm, List.map_cons,
            List.sum_cons] at h ⊢
          by_cases hxy : x = y
          · subst hxy
            simp only [sub_self, mul_zero, zero_mul, zero_add] at h
            have := ih ys (by simpa [vsub, sqnorm] using h)
            simp only [sqnorm] at this
            nlinarith [sq_nonneg x]
          · have hx : 0 < x * x ∨ 0 < y * y := by
              rcases eq_or_ne x 0 with hx0 | hx0
              · right
                have hy0 : y ≠ 0 := by
                  intro h0; exact hxy (by rw [hx0, h0])
                exact mul_self_pos.mpr hy0
              · exact Or.inl (mul_self_pos.mpr hx0)
            have h1 : 0 ≤ (xs.map (fun x => x * x)).sum := by
              have := sqnorm_nonneg xs; simpa [sqnorm] using this
            have h2 : 0 ≤ (ys.map (fun x => x * x)).sum := by
              have := sqnorm_nonneg ys; simpa [sqnorm] using this
            rcases hx with hx | hx
            · nlinarith [sq_nonneg y]
            · nlinarith [sq_nonneg x]

theorem sim_lt_one (v w : List ℚ) (hlen : v.length = w.length) (hne : v ≠ w) :
    sim v w < 1 := by
  have hp := sqnorm_vsub_pos v w hlen hne
  have hd := sqnorm_sum_pos v w hp
  have : 0 < sqnorm (vsub v w) / (sqnorm v + sqnorm w) := div_pos hp hd
  unfold sim; linarith

theorem better_of_lt {a b : MemoryEntry × ℚ} (h : b.2 < a.2) : better a b = true := by
  simp [better, h]

theorem not_better_of_lt {a b : MemoryEntry × ℚ} (h : a.2 < b.2) : better a b = false := by
  unfold better
  rw [if_neg (lt_asymm h), if_neg]
  rintro ⟨he, -⟩
  exact absurd he (ne_of_lt h)

theorem rankEntries_append_top (l : List (MemoryEntry × ℚ)) (z : MemoryEntry × ℚ)
    (hz : ∀ y ∈ l, better z y = true ∧ better y z = false) :
    ∃ rest, rankEntries (l ++ [z]) = z :: rest := by
  induction l with
  | nil => exact ⟨[], rfl⟩
  | cons a l ih =>
      obtain ⟨rest, hrest⟩ := ih (fun y hy => hz y (List.mem_cons_of_mem a hy))
      refine ⟨insertRanked a rest, ?_⟩
      have ha := hz a (List.mem_cons_self a l)
      show insertRanked a (rankEntries (l ++ [z])) = z :: insertRanked a rest
      rw [hrest]
      simp [insertRanked, ha.1]

theorem alignment_unmatched_cons (traits context : List (String × ℚ))
    (k : String) (w : ℚ) (h : context.lookup k = none) :
    alignment ((k, w) :: traits) context = alignment traits context := by
  simp [alignment, h]

theorem alignment_eq_zero (traits context : List (String × ℚ))
    (h : ∀ kv ∈ traits, context.lookup kv.1 = none) :
    alignment traits context = 0 := by
  induction traits with
  | nil => rfl
  | cons kv rest ih =>
      have hk := h kv (List.mem_cons_self kv rest)
      simp only [alignment, List.map_cons, List.sum_cons, hk, Option.getD_none,
        mul_zero, zero_add]
      exact ih (fun kv hkv => h kv (List.mem_cons_of_mem _ hkv))

theorem decayBase_bounds (cfg : NeuroConfig) (h : ConfigWF cfg) :
    0 ≤ decayBase cfg ∧ decayBase cfg ≤ 1 := by
  obtain ⟨-, h0, h1, -⟩ := h
  unfold decayBase
  constructor <;> linarith

theorem decay_pow_le_one (cfg : NeuroConfig) (h : ConfigWF cfg) (n : Nat) :
    decayBase cfg ^ n ≤ 1 :=
  pow_le_one₀ (decayBase_bounds cfg h).1 (decayBase_bounds cfg h).2

theorem clampQ_mem (lo hi x : ℚ) (h : lo ≤ hi) :
    lo ≤ clampQ lo hi x ∧ clampQ lo hi x ≤ hi := by
  unfold clampQ
  exact ⟨le_min h (le_max_left lo x), min_le_left hi _⟩

theorem recall_empty (s : MemoryStore) (q : List ℚ) (k : Nat)
    (h : s.entries = []) : s.recall q k = .error .emptyMemory := by
  unfold MemoryStore.recall
  rw [h]
  rfl

theorem memoryScore_empty (s : MemoryStore) (q : List ℚ) (h : s.entries = []) :
    memoryScore s q = 0 := by
  unfold memoryScore
  rw [recall_empty s q 1 h]

theorem decide_ok (eng : Engine) (E : List (String × List ℚ))
    (ctx : List (String × ℚ)) (c : String) (v : List ℚ)
    (hv : encode E eng.config c = .ok v) :
    eng.decide E ctx c = .ok
      ((if midpoint eng.config <
            clampQ eng.config.score_bounds.1 eng.config.score_bounds.2
              (memoryScore eng.memory v +
               bias eng.profiles ctx * (1 + (eng.modulation.current_factor eng.config).1))
          then "buy" else "hold",
        [("score",
            clampQ eng.config.score_bounds.1 eng.config.score_bounds.2
              (memoryScore eng.memory v +
               bias eng.profiles ctx * (1 + (eng.modulation.current_factor eng.config).1))),
         ("memory_score", memoryScore eng.memory v),
         ("personality_bias", bias eng.profiles ctx),
         ("modulation_factor", (eng.modulation.current_factor eng.config).1)]),
       { eng with modulation := (eng.modulation.current_factor eng.config).2 }) := by
  unfold Engine.decide
  rw [hv]

theorem decide_ok_parts (eng : Engine) (E : List (String × List ℚ))
    (ctx : List (String × ℚ)) (c d : String) (report : List (String × ℚ))
    (eng2 : Engine)
    (hb : eng.config.score_bounds.1 ≤ eng.config.score_bounds.2)
    (h : eng.decide E ctx c = .ok ((d, report), eng2)) :
    (d = "buy" ∨ d = "hold") ∧
    ∃ s, report.lookup "score" = some s ∧
      eng.config.score_bounds.1 ≤ s ∧ s ≤ eng.config.score_bounds.2 := by
  cases hv : encode E eng.config c with
  | error e =>
      unfold Engine.decide at h
      rw [hv] at h
      exact absurd h (by simp)
  | ok v =>
      rw [decide_ok eng E ctx c v hv] at h
      simp only [Except.ok.injEq, Prod.mk.injEq] at h
      obtain ⟨⟨hd, hrep⟩, -⟩ := h
      constructor
      · rw [← hd]
        split
        · exact Or.inl rfl
        · exact Or.inr rfl
      · refine ⟨clampQ eng.config.score_bounds.1 eng.config.score_bounds.2
          (memoryScore eng.memory v +
           bias eng.profiles ctx * (1 + (eng.modulation.current_factor eng.config).1)),
          ?_, (clampQ_mem _ _ _ hb).1, (clampQ_mem _ _ _ hb).2⟩
        rw [← hrep]
        simp [List.lookup]

/-! ## Claims -/

/-- C1: for every valid context/concept pair on which `decide` succeeds,
the returned decision is one of "buy" and "hold", and the `score` field
of the returned report lies within the configured score bounds. -/
theorem claim_C1 (eng : Engine) (E : List (String × List ℚ))
    (ctx : List (String × ℚ)) (c d : String) (report : List (String × ℚ))
    (eng2 : Engine)
    (hb : eng.config.score_bounds.1 ≤ eng.config.score_bounds.2)
    (h : eng.decide E ctx c = .ok ((d, report), eng2)) :
    (d = "buy" ∨ d = "hold") ∧
    ∃ s, report.lookup "score" = some s ∧
      eng.config.score_bounds.1 ≤ s ∧ s ≤ eng.config.score_bounds.2 :=
  decide_ok_parts eng E ctx c d report eng2 hb h

/-- Witness for C1 at a concrete engine, embeddings and context. -/
theorem claim_C1_witness :
    ("hold" = "buy" ∨ "hold" = "hold") ∧
    ∃ s, reportW.lookup "score" = some s ∧
      engW.config.score_bounds.1 ≤ s ∧ s ≤ engW.config.score_bounds.2 :=
  claim_C1 engW embW [] "c" "hold" reportW engW2
    (by simp [engW, Engine.mk0, cfgDim1])
    (by norm_num [engW, embW, reportW, engW2, Engine.decide, Engine.mk0, cfgDim1,
      encode, encodeFrom, phase, squash, memoryScore, MemoryStore.recall, bias,
      alignment, ModulationState.current_factor, decayBase, clampQ, midpoint])

/-- C2: on a successful `decide` the reported score is exactly the
pre-clamp value `memory_score + personality_bias * (1 + modulation_factor)`
clamped into the configured score bounds, where the three contributions
come from the Memory Store, the Personality Registry and the Modulation
State respectively. -/
theorem claim_C2 (eng : Engine) (E : List (String × List ℚ))
    (ctx : List (String × ℚ)) (c : String) (v : List ℚ) (d : String)
    (report : List (String × ℚ)) (eng2 : Engine)
    (hv : encode E eng.config c = .ok v)
    (h : eng.decide E ctx c = .ok ((d, report), eng2)) :
    report.lookup "score" =
      some (clampQ eng.config.score_bounds.1 eng.config.score_bounds.2
        (memoryScore eng.memory v +
         bias eng.profiles ctx * (1 + (eng.modulation.current_factor eng.config).1))) := by
  rw [decide_ok eng E ctx c v hv] at h
  simp only [Except.ok.injEq, Prod.mk.injEq] at h
  obtain ⟨⟨-, hrep⟩, -⟩ := h
  rw [← hrep]
  simp [List.lookup]

/-- Witness for C2 at a concrete engine, embeddings and context. -/
theorem claim_C2_witness :
    reportW.lookup "score" =
      some (clampQ engW.config.score_bounds.1 engW.config.score_bounds.2
        (memoryScore engW.memory vW +
         bias engW.profiles [] * (1 + (engW.modulation.current_factor engW.config).1))) :=
  claim_C2 engW embW [] "c" vW "hold" reportW engW2
    (by norm_num [engW, embW, vW, Engine.mk0, cfgDim1, encode, encodeFrom, phase, squash])
    (by norm_num [engW, embW, reportW, engW2, Engine.decide, Engine.mk0, cfgDim1,
      encode, encodeFrom, phase, squash, memoryScore, MemoryStore.recall, bias,
      alignment, ModulationState.current_factor, decayBase, clampQ, midpoint])

/-- C3: `encode` is a deterministic pure function of the concept's base
embedding and the Configuration — its result depends only on the value
looked up for the concept, so two embeddings mappings agreeing on the
concept give identical results (and in particular two calls with equal
arguments give bit-identical vectors). -/
theorem claim_C3 (e1 e2 : List (String × List ℚ)) (cfg : NeuroConfig)
    (c : String) (h : e1.lookup c = e2.lookup c) :
    encode e1 cfg c = encode e2 cfg c := by
  unfold encode
  rw [h]

/-- Witness for C3: two different embeddings mappings agreeing on the
requested concept encode it identically. -/
theorem claim_C3_witness :
    encode [("c", [1]), ("d", [2])] cfgDim1 "c" = encode [("c", [1])] cfgDim1 "c" :=
  claim_C3 [("c", [1]), ("d", [2])] [("c", [1])] cfgDim1 "c" rfl

/-- C6: `encode` fails with `UnknownConceptError` exactly when the
concept is absent from the supplied embeddings, and `decide` propagates
that error to the caller. -/
theorem claim_C6 :
    (∀ (E : List (String × List ℚ)) (cfg : NeuroConfig) (c : String),
        E.lookup c = none ↔ encode E cfg c = .error (.unknownConcept c)) ∧
    (∀ (eng : Engine) (E : List (String × List ℚ)) (ctx : List (String × ℚ))
        (c : String), E.lookup c = none →
        eng.decide E ctx c = .error (.unknownConcept c)) := by
  constructor
  · intro E cfg c
    constructor
    · intro h
      unfold encode
      rw [h]
    · intro h
      cases hlk : E.lookup c with
      | none => rfl
      | some base =>
          unfold encode at h
          rw [hlk] at h
          have h2 : (if base.length = cfg.dimension then
                (Except.ok (encodeFrom cfg.dimension 0 base) : Except NError (List ℚ))
              else .error .dimensionMismatch) = .error (.unknownConcept c) := h
          by_cases hl : base.length = cfg.dimension
          · rw [if_pos hl] at h2
            exact absurd h2 (by simp)
          · rw [if_neg hl] at h2
            exact absurd h2 (by simp)
  · intro eng E ctx c h
    have he : encode E eng.config c = .error (.unknownConcept c) := by
      unfold encode
      rw [h]
    unfold Engine.decide
    rw [he]

/-- Witness for C6: encoding an absent concept fails with exactly
`UnknownConceptError`. -/
theorem claim_C6_witness :
    encode [] cfgDim1 "x" = .error (.unknownConcept "x") :=
  (claim_C6.1 [] cfgDim1 "x").mp rfl

/-- C9: every vector produced by `encode` has length exactly the
configured dimension and all its components lie in [-1, 1]. -/
theorem claim_C9 (E : List (String × List ℚ)) (cfg : NeuroConfig)
    (c : String) (v : List ℚ) (h : encode E cfg c = .ok v) :
    v.length = cfg.dimension ∧ ∀ x ∈ v, -1 ≤ x ∧ x ≤ 1 := by
  unfold encode at h
  cases hlk : E.lookup c with
  | none =>
      rw [hlk] at h
      exact absurd h (by simp)
  | some base =>
      rw [hlk] at h
      have h2 : (if base.length = cfg.dimension then
            (Except.ok (encodeFrom cfg.dimension 0 base) : Except NError (List ℚ))
          else .error .dimensionMismatch) = .ok v := h
      by_cases hl : base.length = cfg.dimension
      · rw [if_pos hl] at h2
        simp only [Except.ok.injEq] at h2
        subst h2
        exact ⟨by rw [encodeFrom_length, hl], encodeFrom_mem_bounds _ _ _⟩
      · rw [if_neg hl] at h2
        exact absurd h2 (by simp)

/-- Witness for C9 at a concrete embeddings mapping and concept. -/
theorem claim_C9_witness :
    vW.length = cfgDim1.dimension ∧ ∀ x ∈ vW, -1 ≤ x ∧ x ≤ 1 :=
  claim_C9 embW cfgDim1 "c" vW
    (by norm_num [embW, vW, cfgDim1, encode, encodeFrom, phase, squash])

/-- C5: `recall` on a Memory Store with zero entries always fails with
`EmptyMemoryError`, and the engine-level policy for the empty-memory
case is one single fixed policy: `decide` always substitutes the neutral
default memory score 0 (never propagating `EmptyMemoryError`), so every
call on an empty-memory engine whose concept encodes succeeds and
reports a zero memory contribution. -/
theorem claim_C5 :
    (∀ (s : MemoryStore) (q : List ℚ) (k : Nat), s.entries = [] →
        s.recall q k = .error .emptyMemory) ∧
    (∀ (eng : Engine) (E : List (String × List ℚ)) (ctx : List (String × ℚ))
        (c : String) (v : List ℚ), eng.memory.entries = [] →
        encode E eng.config c = .ok v →
        ∃ d report eng2, eng.decide E ctx c = .ok ((d, report), eng2) ∧
          report.lookup "memory_score" = some 0) := by
  constructor
  · exact recall_empty
  · intro eng E ctx c v hmem hv
    refine ⟨_, _, _, decide_ok eng E ctx c v hv, ?_⟩
    have hms : memoryScore eng.memory v = 0 := memoryScore_empty _ _ hmem
    simp [List.lookup, hms]

/-- Witness for C5: recalling from a concrete empty store raises
`EmptyMemoryError`. -/
theorem claim_C5_witness :
    MemoryStore.recall ⟨[]⟩ [1] 1 = .error .emptyMemory :=
  claim_C5.1 ⟨[]⟩ [1] 1 rfl

/-- C8: `bias(context)` is the arithmetic mean over all registered
profiles of each profile's alignment with the matching context keys; a
trait key with no matching context key contributes exactly zero, so a
profile none of whose trait keys appear in the context contributes 0 to
the sum (only the denominator of the mean changes). -/
theorem claim_C8 :
    (∀ (traits context : List (String × ℚ)) (k : String) (w : ℚ),
        context.lookup k = none →
        alignment ((k, w) :: traits) context = alignment traits context) ∧
    (∀ (p : PersonalityProfile) (context : List (String × ℚ)),
        (∀ kv ∈ p.traits, context.lookup kv.1 = none) →
        alignment p.traits context = 0) ∧
    (∀ (p : PersonalityProfile) (ps : List PersonalityProfile)
        (context : List (String × ℚ)),
        (∀ kv ∈ p.traits, context.lookup kv.1 = none) →
        bias (p :: ps) context =
          (ps.map (fun q => alignment q.traits context)).sum / ((ps.length : ℚ) + 1)) := by
  refine ⟨alignment_unmatched_cons,
    fun p ctx h => alignment_eq_zero p.traits ctx h, ?_⟩
  intro p ps ctx h
  unfold bias
  rw [List.map_cons, List.sum_cons, alignment_eq_zero p.traits ctx h, zero_add,
    List.length_cons]
  push_cast
  ring_nf

/-- Witness for C8: a profile whose only trait key is absent from the
context has zero alignment. -/
theorem claim_C8_witness :
    alignment [("x", 5)] [("y", 1)] = 0 :=
  claim_C8.2.1 ⟨"p", [("x", 5)]⟩ [("y", 1)] (by simp [List.lookup])

/-- C7 counterexample: when the intensity is already saturated at the
configured maximum and the clock has just been reset, `trigger` with a
positive delta does not strictly increase `current_factor` — the clamp
absorbs the whole delta, refuting the unconditional strict-increase
claim. -/
theorem claim_C7_counterexample :
    ¬ (((⟨10, 0⟩ : ModulationState).current_factor NeuroConfig.default).1 <
       ((ModulationState.trigger NeuroConfig.default ⟨10, 0⟩ 1).current_factor
          NeuroConfig.default).1) := by
  norm_num [ModulationState.current_factor, ModulationState.trigger,
    NeuroConfig.default, decayBase]

/-- C7 (amended): `trigger` with a positive delta strictly increases the
value of an immediately following `current_factor` provided the raised
intensity does not exceed the configured maximum (the clamp does not
bind); with no further triggers, repeated time-advancing calls to
`current_factor` return a monotonically non-increasing sequence; and the
intensity never becomes negative (it is floored at zero). -/
theorem claim_C7 :
    (∀ (cfg : NeuroConfig) (m : ModulationState) (δ : ℚ), ConfigWF cfg →
        0 ≤ m.intensity → 0 < δ → m.intensity + δ ≤ cfg.max_intensity →
        (m.current_factor cfg).1 < ((m.trigger cfg δ).current_factor cfg).1) ∧
    (∀ (cfg : NeuroConfig) (m : ModulationState), ConfigWF cfg →
        0 ≤ m.intensity →
        (((m.current_factor cfg).2).current_factor cfg).1 ≤ (m.current_factor cfg).1) ∧
    (∀ (cfg : NeuroConfig) (m : ModulationState) (δ : ℚ),
        0 ≤ (m.trigger cfg δ).intensity) := by
  refine ⟨?_, ?_, ?_⟩
  · intro cfg m δ hwf hI hδ hclamp
    have hd := decayBase_bounds cfg hwf
    unfold ModulationState.current_factor ModulationState.trigger
    dsimp only
    rw [pow_zero, mul_one]
    have h1 : min (m.intensity + δ) cfg.max_intensity = m.intensity + δ :=
      min_eq_left hclamp
    have h2 : max 0 (m.intensity + δ) = m.intensity + δ :=
      max_eq_right (by linarith)
    rw [h1, h2]
    have h3 : decayBase cfg ^ m.elapsed ≤ 1 := decay_pow_le_one cfg hwf m.elapsed
    have h4 : m.intensity * decayBase cfg ^ m.elapsed ≤ m.intensity * 1 :=
      mul_le_mul_of_nonneg_left h3 hI
    linarith
  · intro cfg m hwf hI
    have hd := decayBase_bounds cfg hwf
    unfold ModulationState.current_factor
    dsimp only
    have h1 : decayBase cfg ^ (m.elapsed + 1) ≤ decayBase cfg ^ m.elapsed := by
      rw [pow_succ]
      exact mul_le_of_le_one_right (pow_nonneg hd.1 _) hd.2
    exact mul_le_mul_of_nonneg_left h1 hI
  · intro cfg m δ
    exact le_max_left 0 _

/-- Witness for C7 at a concrete configuration and quiescent state. -/
theorem claim_C7_witness :
    ((⟨0, 0⟩ : ModulationState).current_factor NeuroConfig.default).1 <
      ((ModulationState.trigger NeuroConfig.default ⟨0, 0⟩ 1).current_factor
         NeuroConfig.default).1 :=
  claim_C7.1 NeuroConfig.default ⟨0, 0⟩ 1
    (by norm_num [ConfigWF, NeuroConfig.default]) le_rfl (by norm_num)
    (by norm_num [NeuroConfig.default])

/-- C4 counterexample: storing `("a", [1])` and then `("b", [1])` — a
distinct label with the identical vector — and recalling `[1]` returns
the earlier entry `"a"` first (the tie-break falls back to insertion
order), not the just-stored `"b"`, refuting the universal claim. -/
theorem claim_C4_counterexample :
    MemoryStore.store cfgDim1 ⟨[]⟩ "a" [1] 0 = .ok ⟨[⟨"a", [1], 0, 1⟩]⟩ ∧
    MemoryStore.store cfgDim1 ⟨[⟨"a", [1], 0, 1⟩]⟩ "b" [1] 0 =
      .ok ⟨[⟨"a", [1], 0, 1⟩, ⟨"b", [1], 0, 1⟩]⟩ ∧
    MemoryStore.recall ⟨[⟨"a", [1], 0, 1⟩, ⟨"b", [1], 0, 1⟩]⟩ [1] 1 =
      .ok [(⟨"a", [1], 0, 1⟩, 1)] ∧
    ("a" : String) ≠ "b" := by
  refine ⟨by rfl, by rfl, ?_, by simp⟩
  norm_num [MemoryStore.recall, rankEntries, insertRanked, better, sim, sqnorm, vsub]

/-- C4 (amended): storing `(label, v, reward)` into a store whose entries
all carry the configured dimension, none of which reuses the label and
none of which holds a vector identical to `v`, and then immediately
recalling `v` returns exactly the freshly stored entry first, with
similarity exactly 1 — the maximum of the bounded similarity measure. -/
theorem claim_C4 (cfg : NeuroConfig) (s s2 : MemoryStore) (label : String)
    (v : List ℚ) (reward : ℚ)
    (hfresh : ∀ e ∈ s.entries, e.label ≠ label)
    (hvec : ∀ e ∈ s.entries, e.vector ≠ v)
    (hlen : ∀ e ∈ s.entries, e.vector.length = cfg.dimension)
    (hstore : MemoryStore.store cfg s label v reward = .ok s2) :
    s2.recall v 1 = .ok [(⟨label, v, reward, 1⟩, 1)] := by
  unfold MemoryStore.store at hstore
  split at hstore
  case isFalse => exact absurd hstore (by simp)
  case isTrue hdim =>
    split at hstore
    case isTrue hany =>
      exfalso
      obtain ⟨e, he, hlabel⟩ := List.any_eq_true.mp hany
      rw [decide_eq_true_eq] at hlabel
      exact hfresh e he hlabel
    case isFalse hany =>
      simp only [Except.ok.injEq] at hstore
      subst hstore
      have hcond : ∀ y ∈ s.entries.map (fun e => (e, sim v e.vector)),
          better (⟨label, v, reward, 1⟩, 1) y = true ∧
          better y (⟨label, v, reward, 1⟩, 1) = false := by
        intro y hy
        obtain ⟨e, he, rfl⟩ := List.mem_map.mp hy
        have hs : sim v e.vector < 1 :=
          sim_lt_one v e.vector (by rw [hdim, hlen e he]) (Ne.symm (hvec e he))
        exact ⟨better_of_lt hs, not_better_of_lt hs⟩
      obtain ⟨rest, hr⟩ :=
        rankEntries_append_top (s.entries.map (fun e => (e, sim v e.vector)))
          (⟨label, v, reward, 1⟩, 1) hcond
      unfold MemoryStore.recall
      have hne : ((s.entries ++ [⟨label, v, reward, 1⟩] : List MemoryEntry)).isEmpty = false := by
        simp
      rw [show (MemoryStore.mk (s.entries ++ [⟨label, v, reward, 1⟩])).entries =
        s.entries ++ [⟨label, v, reward, 1⟩] from rfl, hne]
      simp only [Bool.false_eq_true, if_false, List.map_append, List.map_cons,
        List.map_nil, sim_self]
      rw [hr]
      simp

/-- Witness for C4 at a concrete fresh store. -/
theorem claim_C4_witness :
    MemoryStore.recall ⟨[⟨"a", [1], 0, 1⟩]⟩ [1] 1 = .ok [(⟨"a", [1], 0, 1⟩, 1)] :=
  claim_C4 cfgDim1 ⟨[]⟩ ⟨[⟨"a", [1], 0, 1⟩]⟩ "a" [1] 0 (by simp) (by simp)
    (by simp) (by rfl)

/-- C10: with the default no-argument configuration, every successful
`decide` returns one of the lowercase strings "buy" and "hold", the
report is a mapping in which the key "score" looks up a value in
[0, 2] (the default score bounds are 0 and 2), and the default
configuration exposes the vector dimensionality as the attribute
`DIM`. -/
theorem claim_C10 :
    NeuroConfig.default.score_bounds = ((0 : ℚ), (2 : ℚ)) ∧
    NeuroConfig.default.DIM = NeuroConfig.default.dimension ∧
    (∀ (eng : Engine) (E : List (String × List ℚ)) (ctx : List (String × ℚ))
        (c d : String) (report : List (String × ℚ)) (eng2 : Engine),
        eng.config = NeuroConfig.default →
        eng.decide E ctx c = .ok ((d, report), eng2) →
        (d = "buy" ∨ d = "hold") ∧
        ∃ s, report.lookup "score" = some s ∧ (0 : ℚ) ≤ s ∧ s ≤ 2) := by
  refine ⟨rfl, rfl, ?_⟩
  intro eng E ctx c d report eng2 hcfg h
  have hb : eng.config.score_bounds.1 ≤ eng.config.score_bounds.2 := by
    rw [hcfg]
    norm_num [NeuroConfig.default]
  have hp := decide_ok_parts eng E ctx c d report eng2 hb h
  rw [hcfg] at hp
  simpa [NeuroConfig.default] using hp

/-- Witness for C10 at a concrete engine over the default
configuration. -/
theorem claim_C10_witness :
    ("hold" = "buy" ∨ "hold" = "hold") ∧
    ∃ s, reportW.lookup "score" = some s ∧ (0 : ℚ) ≤ s ∧ s ≤ 2 :=
  claim_C10.2.2 engD embD [] "opportunity" "hold" reportW engD2 rfl
    (by norm_num [engD, embD, reportW, engD2, Engine.decide, Engine.mk0,
      NeuroConfig.default, encode, encodeFrom, phase, squash, memoryScore,
      MemoryStore.recall, bias, alignment, ModulationState.current_factor,
      decayBase, clampQ, midpoint])

end Neuron7x
